import Mathlib

/-!
Shallow embedding of the tweet-interaction core of the anonymous social
platform (Express + Mongoose).  Strings are modelled as `List Char` where
character-level processing matters; identities (user ids / usernames) are
plain strings compared by equality, matching the JavaScript `===` /
`toString()` comparisons in the source.
-/

namespace AnonSocial

set_option maxRecDepth 8192

/-- The JavaScript whitespace class: the character set matched by the regex
class backslash-s and trimmed by `String.prototype.trim`. -/
def wsJS (c : Char) : Bool :=
  let n := c.toNat
  n == 0x9 || n == 0xA || n == 0xB || n == 0xC || n == 0xD || n == 0x20 ||
  n == 0xA0 || n == 0x1680 || (decide (0x2000 ≤ n) && decide (n ≤ 0x200A)) ||
  n == 0x2028 || n == 0x2029 || n == 0x202F || n == 0x205F || n == 0x3000 ||
  n == 0xFEFF

/-- Characters removed by the first step of `sanitizeTweetText`
(`src/unnamed/part_001`): control characters except newline, i.e. the regex
class x00-x09, x0B-x1F, x7F. -/
def removedCtrl (c : Char) : Bool :=
  let n := c.toNat
  decide (n ≤ 0x9) || (decide (0xB ≤ n) && decide (n ≤ 0x1F)) || n == 0x7F

/-- Drop elements satisfying `p` from both ends of a list: the shape of both
JavaScript `trim` (on characters) and of trimming empty lines. -/
def dropBoth (p : α → Bool) (l : List α) : List α :=
  (l.dropWhile p).rdropWhile p

/-- JavaScript `String.prototype.trim` on the character list. -/
def jsTrim (l : List Char) : List Char := dropBoth wsJS l

/-- Worker for `collapseWs`: the flag records whether we are inside a
whitespace run whose single replacement space was already emitted. -/
def collapseWsAux : Bool → List Char → List Char
  | _, [] => []
  | true, c :: rest =>
    if wsJS c then collapseWsAux true rest
    else c :: collapseWsAux false rest
  | false, c :: rest =>
    if wsJS c then ' ' :: collapseWsAux true rest
    else c :: collapseWsAux false rest

/-- The per-line step `line.replace` of whitespace-runs by a single space:
each maximal run of JS whitespace becomes one space character. -/
def collapseWs (l : List Char) : List Char := collapseWsAux false l

/-- The `cleaned.replace` of CR-LF-or-CR by LF (the regex `\r\n?` is greedy,
so a CR-LF pair becomes one newline, as does a lone CR). -/
def crToNl : List Char → List Char
  | [] => []
  | [c] => if c = '\r' then ['\n'] else [c]
  | c1 :: c2 :: rest =>
    if c1 = '\r' then
      if c2 = '\n' then '\n' :: crToNl rest
      else '\n' :: crToNl (c2 :: rest)
    else c1 :: crToNl (c2 :: rest)

/-- JavaScript `split` on the newline character (never returns an empty
list; the empty string splits to one empty piece). -/
def splitNl : List Char → List (List Char)
  | [] => [[]]
  | c :: rest =>
    if c == '\n' then [] :: splitNl rest
    else
      match splitNl rest with
      | [] => [[c]]
      | h :: t => (c :: h) :: t

/-- JavaScript `join` with the newline character. -/
def joinNl : List (List Char) → List Char
  | [] => []
  | [l] => l
  | l :: ls => l ++ '\n' :: joinNl ls

/-- Embedding of `sanitizeTweetText` from `src/unnamed/part_001`:
strip control characters (except newline), normalize CR/CRLF to LF,
collapse whitespace runs and trim each line, then trim the whole. -/
def sanitizeChars (l : List Char) : List Char :=
  let cleaned := l.filter (fun c => !removedCtrl c)
  let normalized := crToNl cleaned
  let lines := splitNl normalized
  jsTrim (joinNl (lines.map (fun line => jsTrim (collapseWs line))))

/-- String-level `sanitizeTweetText`. -/
def sanitizeTweetText (s : String) : String := String.mk (sanitizeChars s.data)

/-- String-level JavaScript `trim`. -/
def jsTrimStr (s : String) : String := String.mk (jsTrim s.data)

/-- HTML escaping of one character, as in the `text.replace` of the
`POST /tweets` handler of `src/unnamed/part_001` (and `escapeHTML` in the
client script): the five characters amp, lt, gt, apostrophe, quot become
entities, all others are kept. -/
def escapeHtmlChar (c : Char) : List Char :=
  if c == '&' then "&amp;".data
  else if c == '<' then "&lt;".data
  else if c == '>' then "&gt;".data
  else if c.toNat == 0x27 then "&#39;".data
  else if c == '"' then "&quot;".data
  else [c]

/-- HTML escaping of a character list. -/
def escapeHTML (l : List Char) : List Char := (l.map escapeHtmlChar).flatten

/-- String-level HTML escaping. -/
def escapeHTMLStr (s : String) : String := String.mk (escapeHTML s.data)

/-- A comment subdocument: `{username, text, createdAt}`. -/
structure CommentEntry where
  username : String
  text : String
  createdAt : Nat
deriving DecidableEq, Repr

/-- A tweet document (`src/server/models/tweet.js` / `src/unnamed/part_000`).
Likes are identities (user-id strings in the part_000 revision, usernames in
the server-model revision; both are compared by string equality in the
source).  Retweet entries are their `username` field. -/
structure Tweet where
  text : String
  username : String
  likes : List String
  comments : List CommentEntry
  retweets : List String
  createdAt : Nat
deriving DecidableEq, Repr

/-- Instance method `addLike`: refuse when the identity is already in the
like collection, otherwise push it; returns whether it was added. -/
def Tweet.addLike (t : Tweet) (username : String) : Bool × Tweet :=
  if t.likes.any (fun u => u == username) then (false, t)
  else (true, { t with likes := t.likes ++ [username] })

/-- Instance method `addRetweet`: refuse when the identity is already in the
retweet collection, otherwise push it; returns whether it was added. -/
def Tweet.addRetweet (t : Tweet) (username : String) : Bool × Tweet :=
  if t.retweets.any (fun u => u == username) then (false, t)
  else (true, { t with retweets := t.retweets ++ [username] })

/-- Error outcomes of a handler: `validation` is an HTTP 400 response,
`storage` the catch-all 500 response. -/
inductive ApiError where
  | validation (msg : String)
  | storage (msg : String)
deriving DecidableEq, Repr

/-- The `POST /tweets/:id/like` handler of `src/unnamed/part_001`: a pure
if/else toggle — filter the caller out when present, push otherwise. -/
def likeHandlerV1 (t : Tweet) (userId : String) : Tweet :=
  if t.likes.any (fun u => u == userId) then
    { t with likes := t.likes.filter (fun u => !(u == userId)) }
  else
    { t with likes := t.likes ++ [userId] }

/-- The `POST /tweets/:id/like` handler of `src/unnamed/part_002`: filter the
caller out when present, then unconditionally call the `addLike` helper and
answer 400 when it reports a duplicate. -/
def likeHandlerV2 (t : Tweet) (username : String) : Except ApiError Tweet :=
  let t1 :=
    if t.likes.any (fun u => u == username) then
      { t with likes := t.likes.filter (fun u => !(u == username)) }
    else t
  let r := t1.addLike username
  if r.1 then .ok r.2 else .error (.validation "Already liked")

/-- The `POST /tweets/:id/retweet` handler (identical in
`src/unnamed/part_001` and `src/unnamed/part_002`): filter the caller's
retweet out when present, then unconditionally call `addRetweet` and answer
400 when it reports a duplicate. -/
def retweetHandler (t : Tweet) (username : String) : Except ApiError Tweet :=
  let t1 :=
    if t.retweets.any (fun u => u == username) then
      { t with retweets := t.retweets.filter (fun u => !(u == username)) }
    else t
  let r := t1.addRetweet username
  if r.1 then .ok r.2 else .error (.validation "Already retweeted")

/-- The `POST /tweets/:id/comment` handler (identical in both server
revisions): reject empty/whitespace-only text with 400, push the trimmed
text with a server-assigned timestamp, then save — where the Mongoose
comment schema (`maxlength: 280`) rejects oversized text, which the catch
block turns into the 500 response. -/
def commentHandler (t : Tweet) (username text : String) (now : Nat) :
    Except ApiError Tweet :=
  if jsTrimStr text = "" then .error (.validation "Comment text is required")
  else
    let c : CommentEntry := { username := username, text := jsTrimStr text, createdAt := now }
    if c.text.length ≤ 280 then .ok { t with comments := t.comments ++ [c] }
    else .error (.storage "Error commenting")

/-- Maximum tweet length (`MAX_TWEET_LEN` in `src/unnamed/part_001`). -/
def MAX_TWEET_LEN : Nat := 280

/-- The `POST /tweets` handler of `src/unnamed/part_001`: sanitize and trim,
reject length outside 1..280 with 400, HTML-escape, then build and save the
tweet — where the Mongoose schema (`trim`, `required`, `maxlength: 280`)
re-validates the stored (escaped) text; a save failure is the 500 response.
Returns the handler outcome together with the resulting store. -/
def createTweet (store : List Tweet) (username raw : String) (now : Nat) :
    Except ApiError Tweet × List Tweet :=
  let text := jsTrimStr (sanitizeTweetText raw)
  if text.length < 1 ∨ MAX_TWEET_LEN < text.length then
    (.error (.validation "Tweet must be between 1 and 280 characters"), store)
  else
    let stored := jsTrimStr (escapeHTMLStr text)
    if stored.length < 1 ∨ MAX_TWEET_LEN < stored.length then
      (.error (.storage "Error creating tweet"), store)
    else
      let tw : Tweet :=
        { text := stored, username := username, likes := [], comments := [],
          retweets := [], createdAt := now }
      (.ok tw, store ++ [tw])

/-- The `POST /tweets` handler of `src/unnamed/part_002`: no sanitization,
no length check — reject only empty/whitespace-only text with 400
("Tweet text is required"), store the trimmed text (the schema's `trim`
setter trims again), and save, where the Mongoose schema (`required`,
`maxlength: 280`) validates; a save failure is caught as the 500 response.
Returns the handler outcome together with the resulting store. -/
def createTweetV2 (store : List Tweet) (username raw : String) (now : Nat) :
    Except ApiError Tweet × List Tweet :=
  if jsTrimStr raw = "" then
    (.error (.validation "Tweet text is required"), store)
  else
    let stored := jsTrimStr (jsTrimStr raw)
    if stored.length < 1 ∨ MAX_TWEET_LEN < stored.length then
      (.error (.storage "Error creating tweet"), store)
    else
      let tw : Tweet :=
        { text := stored, username := username, likes := [], comments := [],
          retweets := [], createdAt := now }
      (.ok tw, store ++ [tw])

/-- Descending insertion by creation timestamp (one step of the
`sort createdAt -1` retrieval order). -/
def insertByCreatedDesc (t : Tweet) : List Tweet → List Tweet
  | [] => [t]
  | h :: rest =>
    if h.createdAt < t.createdAt then t :: h :: rest
    else h :: insertByCreatedDesc t rest

/-- Sort a store newest-first by creation timestamp. -/
def sortByCreatedDesc (l : List Tweet) : List Tweet :=
  l.foldr insertByCreatedDesc []

/-- The feed query `find().sort(createdAt descending).limit(limit)`. -/
def listRecent (limit : Nat) (store : List Tweet) : List Tweet :=
  (sortByCreatedDesc store).take limit

/-- The `GET /tweets` endpoint of `src/unnamed/part_001`: newest-first,
capped at 50. -/
def tweetsEndpoint (store : List Tweet) : List Tweet := listRecent 50 store

/-- The `GET /tweets` endpoint of `src/unnamed/part_002`:
`find().sort(createdAt descending)` with no `limit` call — newest-first and
unbounded. -/
def tweetsEndpointV2 (store : List Tweet) : List Tweet := sortByCreatedDesc store

/-- The descending unit table of the `timeAgo` virtual
(`src/server/models/tweet.js`). -/
def intervals : List (String × Int) :=
  [("y", 31536000), ("mo", 2592000), ("w", 604800), ("d", 86400),
   ("h", 3600), ("m", 60)]

/-- The `timeAgo` virtual: walk the unit table, return the first unit whose
floored quotient is at least 1, else the raw seconds with label s. -/
def timeAgo (seconds : Int) : String :=
  match intervals.findSome? (fun iv =>
      let count := seconds.fdiv iv.2
      if 1 ≤ count then some (toString count ++ iv.1) else none) with
  | some s => s
  | none => toString seconds ++ "s"

/-- The client `formatTimeAgo` (`src/client/scripts/scripts.js`): nested
thresholds seconds/minutes/hours, capping at days. -/
def formatTimeAgo (diffInSeconds : Int) : String :=
  if diffInSeconds < 60 then toString diffInSeconds ++ "s"
  else
    let diffInMinutes := diffInSeconds.fdiv 60
    if diffInMinutes < 60 then toString diffInMinutes ++ "m"
    else
      let diffInHours := diffInMinutes.fdiv 60
      if diffInHours < 24 then toString diffInHours ++ "h"
      else toString (diffInHours.fdiv 24) ++ "d"

/-- Spec-side restatement of the time-ago algorithm, written from the spec's
words: walk the descending unit table year 31536000, month 2592000, week
604800, day 86400, hour 3600, minute 60; return count-then-label for the
first unit with floored quotient at least 1; else the elapsed seconds with
label s. -/
def timeAgoSpec (elapsed : Int) : String :=
  if 1 ≤ elapsed.fdiv 31536000 then toString (elapsed.fdiv 31536000) ++ "y"
  else if 1 ≤ elapsed.fdiv 2592000 then toString (elapsed.fdiv 2592000) ++ "mo"
  else if 1 ≤ elapsed.fdiv 604800 then toString (elapsed.fdiv 604800) ++ "w"
  else if 1 ≤ elapsed.fdiv 86400 then toString (elapsed.fdiv 86400) ++ "d"
  else if 1 ≤ elapsed.fdiv 3600 then toString (elapsed.fdiv 3600) ++ "h"
  else if 1 ≤ elapsed.fdiv 60 then toString (elapsed.fdiv 60) ++ "m"
  else toString elapsed ++ "s"

/-- One like/retweet interaction, tagged by the handler revision. -/
inductive InteractionOp where
  | likeV1 (u : String)
  | likeV2 (u : String)
  | retweet (u : String)

/-- Apply one interaction to the persisted tweet: an error response saves
nothing, so the persisted state is unchanged on that branch. -/
def applyOp (t : Tweet) : InteractionOp → Tweet
  | .likeV1 u => likeHandlerV1 t u
  | .likeV2 u =>
    match likeHandlerV2 t u with
    | .ok t1 => t1
    | .error _ => t
  | .retweet u =>
    match retweetHandler t u with
    | .ok t1 => t1
    | .error _ => t

/-- Apply a sequence of interactions in order. -/
def runOps (t : Tweet) (ops : List InteractionOp) : Tweet :=
  ops.foldl applyOp t

/-! ### Auxiliary predicates and sample data -/

/-- Newest-first order: each tweet's creation timestamp is at least the
next one's. -/
def SortedDesc (l : List Tweet) : Prop :=
  l.Chain' (fun a b => b.createdAt ≤ a.createdAt)

/-- Head test: the list is empty or its head fails `p`. -/
def noHead (p : α → Bool) (l : List α) : Prop :=
  ∀ d, l.head? = some d → p d = false

/-- Normal form of a collapsed line: every whitespace character is a plain
space and no two adjacent characters are both whitespace. -/
def Normal (l : List Char) : Prop :=
  (∀ c ∈ l, wsJS c = true → c = ' ') ∧
  l.Chain' (fun a b => ¬(wsJS a = true ∧ wsJS b = true))

def ampRaw : String := String.mk (List.replicate 57 '&')

/-- A text consisting of one BEL control character: its sanitized form is
empty, yet it is neither empty nor whitespace-only, so the part_002 create
guard does not reject it. -/
def ctrlRaw : String := "\x07"


def oversizedComment : String := String.mk (List.replicate 281 'a')

/-- A fresh post with no interactions. -/
def tweetEmpty : Tweet :=
  { text := "hello world", username := "alice", likes := [], comments := [],
    retweets := [], createdAt := 0 }

/-- The fresh post after one like by bob. -/
def tweetLiked : Tweet := { tweetEmpty with likes := ["bob"] }

/-- A post already retweeted by bob. -/
def tweetRetweeted : Tweet := { tweetEmpty with retweets := ["bob"] }

/-- Sample starting tweet for the uniqueness-invariant witness. -/
def sampleTweet : Tweet :=
  { text := "t", username := "alice", likes := ["a"], comments := [],
    retweets := ["b"], createdAt := 0 }

/-- Sample interaction sequence for the uniqueness-invariant witness. -/
def sampleOps : List InteractionOp :=
  [.likeV2 "a", .retweet "b", .likeV1 "c", .likeV1 "a", .retweet "d"]

/-- Three posts created at increasing timestamps. -/
def feedPost1 : Tweet :=
  { text := "p1", username := "alice", likes := [], comments := [],
    retweets := [], createdAt := 1 }

/-- Second post, created after the first. -/
def feedPost2 : Tweet := { feedPost1 with text := "p2", createdAt := 2 }

/-- Third post, created last. -/
def feedPost3 : Tweet := { feedPost1 with text := "p3", createdAt := 3 }

def mkTweetDoc (username text : String) (now : Nat) : Tweet :=
  { text := text, username := username, likes := [], comments := [],
    retweets := [], createdAt := now }

/-- A store of 51 posts with distinct ascending creation timestamps. -/
def feedStore51 : List Tweet := (List.range 51).map (fun i => mkTweetDoc "alice" "p" i)

/-! ### Generic facts about membership tests and toggle pushes -/

theorem mem_of_any_beq {l : List String} {u : String}
    (h : l.any (fun x => x == u) = true) : u ∈ l := by
  simpa using h

theorem not_mem_of_any_beq {l : List String} {u : String}
    (h : l.any (fun x => x == u) = false) : u ∉ l := by
  intro hmem
  have h2 : l.any (fun x => x == u) = true := List.any_eq_true.mpr ⟨u, hmem, by simp⟩
  rw [h] at h2
  exact Bool.false_ne_true h2

theorem not_mem_filter_ne (l : List String) (u : String) :
    u ∉ l.filter (fun x => !(x == u)) := by
  intro hmem
  have := (List.mem_filter.mp hmem).2
  simp at this

theorem nodup_push {l : List String} {u : String}
    (h : l.Nodup) (hu : u ∉ l) : (l ++ [u]).Nodup := by
  simp [List.nodup_append, h, hu]

/-! ### Behaviour of the like/retweet handlers -/

/-- The part_002 like handler never reaches its 400 branch: after the
unlike filter the caller is absent, so `addLike` always reports success. -/
theorem likeHandlerV2_ok (t : Tweet) (u : String) :
    likeHandlerV2 t u =
      .ok (if t.likes.any (fun x => x == u) then
            { t with likes := t.likes.filter (fun x => !(x == u)) ++ [u] }
          else { t with likes := t.likes ++ [u] }) := by
  unfold likeHandlerV2 Tweet.addLike
  by_cases h : t.likes.any (fun x => x == u)
  · have hf : ((t.likes.filter (fun x => !(x == u))).any (fun x => x == u)) = false := by
      by_contra hc
      exact not_mem_filter_ne t.likes u
        (mem_of_any_beq (eq_true_of_ne_false hc))
    simp [h, hf]
  · simp only [Bool.not_eq_true] at h
    simp [h]

/-- The retweet handler never reaches its 400 branch, for the same reason. -/
theorem retweetHandler_ok (t : Tweet) (u : String) :
    retweetHandler t u =
      .ok (if t.retweets.any (fun x => x == u) then
            { t with retweets := t.retweets.filter (fun x => !(x == u)) ++ [u] }
          else { t with retweets := t.retweets ++ [u] }) := by
  unfold retweetHandler Tweet.addRetweet
  by_cases h : t.retweets.any (fun x => x == u)
  · have hf : ((t.retweets.filter (fun x => !(x == u))).any (fun x => x == u)) = false := by
      by_contra hc
      exact not_mem_filter_ne t.retweets u
        (mem_of_any_beq (eq_true_of_ne_false hc))
    simp [h, hf]
  · simp only [Bool.not_eq_true] at h
    simp [h]

/-- Unfolding of `applyOp` for the part_002 like handler. -/
theorem applyOp_likeV2 (t : Tweet) (u : String) :
    applyOp t (.likeV2 u) =
      (if t.likes.any (fun x => x == u) then
        { t with likes := t.likes.filter (fun x => !(x == u)) ++ [u] }
      else { t with likes := t.likes ++ [u] }) := by
  show (match likeHandlerV2 t u with | .ok t1 => t1 | .error _ => t) = _
  rw [likeHandlerV2_ok]

/-- Unfolding of `applyOp` for the retweet handler. -/
theorem applyOp_retweet (t : Tweet) (u : String) :
    applyOp t (.retweet u) =
      (if t.retweets.any (fun x => x == u) then
        { t with retweets := t.retweets.filter (fun x => !(x == u)) ++ [u] }
      else { t with retweets := t.retweets ++ [u] }) := by
  show (match retweetHandler t u with | .ok t1 => t1 | .error _ => t) = _
  rw [retweetHandler_ok]

/-- Each interaction preserves uniqueness of the like and retweet sets. -/
theorem applyOp_nodup (t : Tweet) (op : InteractionOp)
    (h1 : t.likes.Nodup) (h2 : t.retweets.Nodup) :
    (applyOp t op).likes.Nodup ∧ (applyOp t op).retweets.Nodup := by
  cases op with
  | likeV1 u =>
    show ((likeHandlerV1 t u).likes.Nodup ∧ (likeHandlerV1 t u).retweets.Nodup)
    unfold likeHandlerV1
    by_cases h : t.likes.any (fun x => x == u)
    · rw [if_pos h]
      exact ⟨h1.filter _, h2⟩
    · rw [if_neg h]
      exact ⟨nodup_push h1 (not_mem_of_any_beq (Bool.eq_false_iff.mpr h)), h2⟩
  | likeV2 u =>
    rw [applyOp_likeV2]
    by_cases h : t.likes.any (fun x => x == u)
    · rw [if_pos h]
      exact ⟨nodup_push (h1.filter _) (not_mem_filter_ne _ _), h2⟩
    · rw [if_neg h]
      exact ⟨nodup_push h1 (not_mem_of_any_beq (Bool.eq_false_iff.mpr h)), h2⟩
  | retweet u =>
    rw [applyOp_retweet]
    by_cases h : t.retweets.any (fun x => x == u)
    · rw [if_pos h]
      exact ⟨h1, nodup_push (h2.filter _) (not_mem_filter_ne _ _)⟩
    · rw [if_neg h]
      exact ⟨h1, nodup_push h2 (not_mem_of_any_beq (Bool.eq_false_iff.mpr h))⟩

/-! ### Feed ordering -/

theorem sortedDesc_insert {t : Tweet} {l : List Tweet} (h : SortedDesc l) :
    SortedDesc (insertByCreatedDesc t l) := by
  induction l with
  | nil => simp [insertByCreatedDesc, SortedDesc]
  | cons b rest ih =>
    rw [insertByCreatedDesc]
    by_cases hb : b.createdAt < t.createdAt
    · rw [if_pos hb]
      exact List.chain'_cons.mpr ⟨hb.le, h⟩
    · rw [if_neg hb]
      have hrest : SortedDesc rest := (List.chain'_cons'.mp h).2
      refine List.chain'_cons'.mpr ⟨?_, ih hrest⟩
      intro y hy
      cases rest with
      | nil =>
        simp [insertByCreatedDesc] at hy
        subst hy
        exact le_of_not_lt hb
      | cons c cs =>
        rw [insertByCreatedDesc] at hy
        by_cases hc : c.createdAt < t.createdAt
        · rw [if_pos hc] at hy
          simp at hy
          subst hy
          exact le_of_not_lt hb
        · rw [if_neg hc] at hy
          simp at hy
          subst hy
          exact (List.chain'_cons'.mp h).1 c rfl

theorem sortedDesc_sort (l : List Tweet) : SortedDesc (sortByCreatedDesc l) := by
  unfold sortByCreatedDesc
  induction l with
  | nil => simp [SortedDesc]
  | cons a rest ih => exact sortedDesc_insert ih

theorem length_insertByCreatedDesc (t : Tweet) (l : List Tweet) :
    (insertByCreatedDesc t l).length = l.length + 1 := by
  induction l with
  | nil => rfl
  | cons h rest ih =>
    rw [insertByCreatedDesc]
    by_cases hc : h.createdAt < t.createdAt
    · rw [if_pos hc]
      simp
    · rw [if_neg hc]
      simp [ih]

/-- Sorting does not change the number of posts: the unbounded part_002
feed returns the whole store. -/
theorem length_sortByCreatedDesc (l : List Tweet) :
    (sortByCreatedDesc l).length = l.length := by
  unfold sortByCreatedDesc
  induction l with
  | nil => rfl
  | cons a rest ih =>
    rw [List.foldr_cons, length_insertByCreatedDesc, ih]
    rfl

/-! ### Trimming is idempotent -/

theorem dropBoth_idem (p : α → Bool) (l : List α) :
    dropBoth p (dropBoth p l) = dropBoth p l := by
  unfold dropBoth
  have h1 : List.dropWhile p ((l.dropWhile p).rdropWhile p) =
      (l.dropWhile p).rdropWhile p := by
    rw [List.dropWhile_eq_self_iff]
    intro hl
    have hpre : (l.dropWhile p).rdropWhile p <+: l.dropWhile p :=
      List.rdropWhile_prefix _ _
    have hget := hpre.getElem (n := 0) hl
    have hself : List.dropWhile p (l.dropWhile p) = l.dropWhile p :=
      List.dropWhile_idempotent _ _
    have h0 : 0 < (l.dropWhile p).length := Nat.lt_of_lt_of_le hl hpre.length_le
    have := (List.dropWhile_eq_self_iff).mp hself h0
    simpa [List.get_eq_getElem, hget] using this
  rw [h1, List.rdropWhile_idempotent]

theorem jsTrim_idem (l : List Char) : jsTrim (jsTrim l) = jsTrim l :=
  dropBoth_idem wsJS l

/-- The sanitizer ends with a trim, so the extra `.trim()` call of the
create handler is a no-op on its output. -/
theorem jsTrimStr_sanitize (s : String) :
    jsTrimStr (sanitizeTweetText s) = sanitizeTweetText s := by
  unfold jsTrimStr sanitizeTweetText sanitizeChars
  exact congrArg String.mk (jsTrim_idem _)

/-- The trim of an already-trimmed string (the schema's `trim` setter on
the handler's `text.trim()`) is a no-op. -/
theorem jsTrimStr_idem (s : String) :
    jsTrimStr (jsTrimStr s) = jsTrimStr s :=
  congrArg String.mk (jsTrim_idem s.data)

/-! ### Structure of sanitizer output -/

theorem noHead_collapseWsAux_true (l : List Char) :
    noHead wsJS (collapseWsAux true l) := by
  induction l with
  | nil => intro d hd; simp [collapseWsAux] at hd
  | cons c rest ih =>
    by_cases hws : wsJS c
    · simpa [collapseWsAux, hws] using ih
    · intro d hd
      simp [collapseWsAux, hws] at hd
      rw [← hd]
      exact Bool.eq_false_iff.mpr hws

theorem mem_collapseWsAux {c : Char} :
    ∀ (l : List Char) (b : Bool), c ∈ collapseWsAux b l → c = ' ' ∨ c ∈ l := by
  intro l
  induction l with
  | nil => intro b h; cases b <;> simp [collapseWsAux] at h
  | cons a rest ih =>
    intro b h
    by_cases hws : wsJS a
    · cases b with
      | true =>
        simp only [collapseWsAux, hws, if_true] at h
        rcases ih true h with h1 | h1
        · exact Or.inl h1
        · exact Or.inr (List.mem_cons_of_mem a h1)
      | false =>
        simp only [collapseWsAux, hws, if_true] at h
        rcases List.mem_cons.mp h with h1 | h1
        · exact Or.inl h1
        · rcases ih true h1 with h2 | h2
          · exact Or.inl h2
          · exact Or.inr (List.mem_cons_of_mem a h2)
    · have hred : collapseWsAux b (a :: rest) = a :: collapseWsAux false rest := by
        cases b <;> simp [collapseWsAux, hws]
      rw [hred] at h
      rcases List.mem_cons.mp h with h1 | h1
      · exact Or.inr (h1 ▸ List.mem_cons_self a rest)
      · rcases ih false h1 with h2 | h2
        · exact Or.inl h2
        · exact Or.inr (List.mem_cons_of_mem a h2)

theorem Normal_collapseWsAux (l : List Char) : ∀ b, Normal (collapseWsAux b l) := by
  induction l with
  | nil => intro b; cases b <;> exact ⟨by simp [collapseWsAux], by simp [collapseWsAux]⟩
  | cons c rest ih =>
    intro b
    by_cases hws : wsJS c
    · cases b with
      | true => simpa [collapseWsAux, hws] using ih true
      | false =>
        simp only [collapseWsAux, hws, if_true]
        constructor
        · intro x hx hxws
          rcases List.mem_cons.mp hx with h1 | h1
          · exact h1
          · exact (ih true).1 x h1 hxws
        · rw [List.chain'_cons']
          refine ⟨?_, (ih true).2⟩
          intro y hy hcon
          have := noHead_collapseWsAux_true rest y hy
          rw [this] at hcon
          exact absurd hcon.2 (by simp)
    · have hred : collapseWsAux b (c :: rest) = c :: collapseWsAux false rest := by
        cases b <;> simp [collapseWsAux, hws]
      rw [hred]
      constructor
      · intro x hx hxws
        rcases List.mem_cons.mp hx with h1 | h1
        · rw [h1] at hxws; rw [hxws] at hws; exact absurd rfl hws
        · exact (ih false).1 x h1 hxws
      · rw [List.chain'_cons']
        refine ⟨?_, (ih false).2⟩
        intro y hy hcon
        rw [hcon.1] at hws
        exact hws rfl

theorem Normal_tail {c : Char} {rest : List Char} (h : Normal (c :: rest)) :
    Normal rest :=
  ⟨fun x hx => h.1 x (List.mem_cons_of_mem c hx), (List.chain'_cons'.mp h.2).2⟩

theorem collapseWsAux_eq_self (l : List Char) (h : Normal l) :
    collapseWsAux false l = l ∧ (noHead wsJS l → collapseWsAux true l = l) := by
  induction l with
  | nil => exact ⟨rfl, fun _ => rfl⟩
  | cons c rest ih =>
    have hrest := ih (Normal_tail h)
    by_cases hws : wsJS c
    · have hc : c = ' ' := h.1 c (List.mem_cons_self c rest) hws
      have hhead : noHead wsJS rest := by
        intro d hd
        have hrel := (List.chain'_cons'.mp h.2).1 d hd
        by_contra hne
        exact hrel ⟨hws, eq_true_of_ne_false hne⟩
      constructor
      · simp only [collapseWsAux, hws, if_true]
        rw [hrest.2 hhead, hc]
      · intro hnh
        have := hnh c rfl
        rw [hws] at this
        exact absurd this (by simp)
    · constructor
      · simp only [collapseWsAux, hws, if_false, Bool.false_eq_true]
        rw [hrest.1]
      · intro _
        simp only [collapseWsAux, hws, if_false, Bool.false_eq_true]
        rw [hrest.1]

theorem collapseWs_eq_self {l : List Char} (h : Normal l) : collapseWs l = l :=
  (collapseWsAux_eq_self l h).1


theorem dropBoth_eq_self_iff (p : α → Bool) (l : List α) :
    dropBoth p l = l ↔ l.dropWhile p = l ∧ l.rdropWhile p = l := by
  constructor
  · intro h
    have hsub1 : l.dropWhile p <:+ l := List.dropWhile_suffix p
    have hsub2 : (l.dropWhile p).rdropWhile p <+: l.dropWhile p :=
      List.rdropWhile_prefix _ _
    have hlen : l.length ≤ (l.dropWhile p).length := by
      conv_lhs => rw [← h]
      exact hsub2.length_le
    have h1 : l.dropWhile p = l := hsub1.sublist.eq_of_length_le hlen
    refine ⟨h1, ?_⟩
    have : dropBoth p l = l.rdropWhile p := by
      unfold dropBoth
      rw [h1]
    rw [← this, h]
  · intro h
    unfold dropBoth
    rw [h.1, h.2]

theorem noHead_of_dropWhile_eq_self {p : α → Bool} {l : List α}
    (h : l.dropWhile p = l) : noHead p l := by
  intro d hd
  cases l with
  | nil => simp at hd
  | cons c rest =>
    simp only [List.head?_cons, Option.some.injEq] at hd
    by_contra hne
    have hp : p c = true := by rw [hd]; exact eq_true_of_ne_false hne
    rw [List.dropWhile_cons, if_pos hp] at h
    have := congrArg List.length h
    have hle : (rest.dropWhile p).length ≤ rest.length :=
      (List.dropWhile_suffix p).sublist.length_le
    simp at this
    omega

theorem rdropWhile_eq_self_rev {p : α → Bool} {l : List α} :
    l.rdropWhile p = l ↔ l.reverse.dropWhile p = l.reverse := by
  unfold List.rdropWhile
  constructor
  · intro h
    conv_rhs => rw [← h]
    rw [List.reverse_reverse]
  · intro h
    rw [h, List.reverse_reverse]

/-- Both ends of a trim-fixed list fail the predicate. -/
theorem noHead_of_dropBoth_eq_self {p : α → Bool} {l : List α}
    (h : dropBoth p l = l) : noHead p l ∧ noHead p l.reverse := by
  obtain ⟨h1, h2⟩ := (dropBoth_eq_self_iff p l).mp h
  exact ⟨noHead_of_dropWhile_eq_self h1,
    noHead_of_dropWhile_eq_self (rdropWhile_eq_self_rev.mp h2)⟩

theorem dropBoth_infix_self (p : α → Bool) (l : List α) : dropBoth p l <:+: l :=
  (( List.rdropWhile_prefix p (l.dropWhile p)).isInfix).trans
    (List.dropWhile_suffix p).isInfix

theorem jsTrim_fixed_of_jsTrim (l : List Char) : jsTrim (jsTrim l) = jsTrim l :=
  jsTrim_idem l

theorem Normal_jsTrim {l : List Char} (h : Normal l) : Normal (jsTrim l) := by
  have hinf : jsTrim l <:+: l := dropBoth_infix_self wsJS l
  exact ⟨fun c hc => h.1 c (hinf.subset hc), List.Chain'.infix h.2 hinf⟩

/-- Trim-after-collapse is a fixed point of trim-after-collapse. -/
theorem line_fix (l : List Char) :
    jsTrim (collapseWs (jsTrim (collapseWs l))) = jsTrim (collapseWs l) := by
  have h1 : Normal (collapseWs l) := Normal_collapseWsAux l false
  have h2 : Normal (jsTrim (collapseWs l)) := Normal_jsTrim h1
  rw [collapseWs_eq_self h2, jsTrim_idem]


theorem splitNl_ne_nil (l : List Char) : splitNl l ≠ [] := by
  cases l with
  | nil => simp [splitNl]
  | cons c rest =>
    unfold splitNl
    by_cases hc : c == '\n'
    · simp [hc]
    · simp only [hc, if_false, Bool.false_eq_true]
      cases splitNl rest <;> simp

theorem mem_splitNl_no_nl :
    ∀ (l : List Char) (m : List Char), m ∈ splitNl l → '\n' ∉ m := by
  intro l
  induction l with
  | nil =>
    intro m hm
    simp [splitNl] at hm
    simp [hm]
  | cons c rest ih =>
    intro m hm
    by_cases hc : c == '\n'
    · simp only [splitNl, hc, if_true] at hm
      rcases List.mem_cons.mp hm with h1 | h1
      · simp [h1]
      · exact ih m h1
    · simp only [splitNl, hc, if_false, Bool.false_eq_true] at hm
      cases hs : splitNl rest with
      | nil => exact absurd hs (splitNl_ne_nil rest)
      | cons h t =>
        rw [hs] at hm
        rcases List.mem_cons.mp hm with h1 | h1
        · subst h1
          intro hmem
          rcases List.mem_cons.mp hmem with h2 | h2
          · rw [h2] at hc; simp at hc
          · exact ih h (hs ▸ List.mem_cons_self h t) h2
        · exact ih m (hs ▸ List.mem_cons_of_mem h h1)

theorem mem_of_mem_splitNl :
    ∀ (l m : List Char), m ∈ splitNl l → ∀ c ∈ m, c ∈ l := by
  intro l
  induction l with
  | nil =>
    intro m hm c hc
    simp [splitNl] at hm
    rw [hm] at hc
    simp at hc
  | cons a rest ih =>
    intro m hm c hc
    by_cases ha : a == '\n'
    · simp only [splitNl, ha, if_true] at hm
      rcases List.mem_cons.mp hm with h1 | h1
      · rw [h1] at hc; simp at hc
      · exact List.mem_cons_of_mem a (ih m h1 c hc)
    · simp only [splitNl, ha, if_false, Bool.false_eq_true] at hm
      cases hs : splitNl rest with
      | nil => exact absurd hs (splitNl_ne_nil rest)
      | cons h t =>
        rw [hs] at hm
        rcases List.mem_cons.mp hm with h1 | h1
        · subst h1
          rcases List.mem_cons.mp hc with h2 | h2
          · exact h2 ▸ List.mem_cons_self a rest
          · exact List.mem_cons_of_mem a
              (ih h (hs ▸ List.mem_cons_self h t) c h2)
        · exact List.mem_cons_of_mem a
            (ih m (hs ▸ List.mem_cons_of_mem h h1) c hc)

theorem splitNl_of_no_nl {l : List Char} (h : '\n' ∉ l) : splitNl l = [l] := by
  induction l with
  | nil => rfl
  | cons c rest ih =>
    have hc : (c == '\n') = false := by
      simp only [beq_eq_false_iff_ne, ne_eq]
      intro he
      exact h (he ▸ List.mem_cons_self c rest)
    have hrest : '\n' ∉ rest := fun hm => h (List.mem_cons_of_mem c hm)
    simp only [splitNl, hc, if_false, Bool.false_eq_true, ih hrest]

theorem splitNl_cons_of_ne (c : Char) (l : List Char) (hc : (c == '\n') = false) :
    splitNl (c :: l) =
      match splitNl l with
      | [] => [[c]]
      | h :: t => (c :: h) :: t := by
  simp only [splitNl, hc, Bool.false_eq_true, if_false]

theorem splitNl_append {m : List Char} (rest : List Char) (h : '\n' ∉ m) :
    splitNl (m ++ '\n' :: rest) = m :: splitNl rest := by
  induction m with
  | nil => simp [splitNl]
  | cons c m' ih =>
    have hc : (c == '\n') = false := by
      simp only [beq_eq_false_iff_ne, ne_eq]
      intro he
      exact h (he ▸ List.mem_cons_self c m')
    have hm' : '\n' ∉ m' := fun hm => h (List.mem_cons_of_mem c hm)
    rw [List.cons_append, splitNl_cons_of_ne c _ hc, ih hm']

theorem joinNl_cons (m : List Char) (a : List Char) (l : List (List Char)) :
    joinNl (m :: a :: l) = m ++ '\n' :: joinNl (a :: l) := rfl

theorem splitNl_joinNl :
    ∀ (ms : List (List Char)), (∀ m ∈ ms, '\n' ∉ m) → ms ≠ [] →
      splitNl (joinNl ms) = ms := by
  intro ms
  induction ms with
  | nil => intro _ h; exact absurd rfl h
  | cons m ms' ih =>
    intro hnl _
    cases ms' with
    | nil =>
      show splitNl (joinNl [m]) = [m]
      exact splitNl_of_no_nl (hnl m (List.mem_cons_self m []))
    | cons a l =>
      rw [joinNl_cons, splitNl_append _ (hnl m (List.mem_cons_self m _)),
        ih (fun x hx => hnl x (List.mem_cons_of_mem m hx)) (by simp)]

theorem mem_joinNl :
    ∀ (ms : List (List Char)) (c : Char), c ∈ joinNl ms →
      c = '\n' ∨ ∃ m ∈ ms, c ∈ m := by
  intro ms
  induction ms with
  | nil => intro c hc; simp [joinNl] at hc
  | cons m ms' ih =>
    intro c hc
    cases ms' with
    | nil =>
      exact Or.inr ⟨m, List.mem_cons_self m [], hc⟩
    | cons a l =>
      rw [joinNl_cons] at hc
      rcases List.mem_append.mp hc with h1 | h1
      · exact Or.inr ⟨m, List.mem_cons_self m _, h1⟩
      · rcases List.mem_cons.mp h1 with h2 | h2
        · exact Or.inl h2
        · rcases ih c h2 with h3 | ⟨x, hx, hcx⟩
          · exact Or.inl h3
          · exact Or.inr ⟨x, List.mem_cons_of_mem m hx, hcx⟩

theorem crToNl_of_no_cr : ∀ (l : List Char), '\r' ∉ l → crToNl l = l := by
  intro l
  induction l using crToNl.induct with
  | case1 => intro _; rfl
  | case2 => intro h; exact absurd (List.mem_cons_self _ _) h
  | case3 c hc =>
    intro _
    simp [crToNl, hc]
  | case4 rest ih =>
    intro h
    exact absurd (List.mem_cons_self _ _) h
  | case5 c2 rest h2 ih =>
    intro h
    exact absurd (List.mem_cons_self _ _) h
  | case6 c1 c2 rest h1 ih =>
    intro h
    have hrest : '\r' ∉ c2 :: rest := fun hm => h (List.mem_cons_of_mem c1 hm)
    simp only [crToNl, if_neg h1, ih hrest]

theorem mem_crToNl : ∀ (l : List Char) (c : Char), c ∈ crToNl l → c = '\n' ∨ c ∈ l := by
  intro l
  induction l using crToNl.induct with
  | case1 => intro c hc; simp [crToNl] at hc
  | case2 =>
    intro c hc
    simp [crToNl] at hc
    exact Or.inl hc
  | case3 a ha =>
    intro c hc
    simp [crToNl, ha] at hc
    exact Or.inr (by simp [hc])
  | case4 rest ih =>
    intro c hc
    simp only [crToNl, if_pos rfl] at hc
    rcases List.mem_cons.mp hc with h | h
    · exact Or.inl h
    · rcases ih c h with h3 | h3
      · exact Or.inl h3
      · exact Or.inr (by simp [h3])
  | case5 c2 rest h2 ih =>
    intro c hc
    simp only [crToNl, if_pos rfl, if_neg h2] at hc
    rcases List.mem_cons.mp hc with h | h
    · exact Or.inl h
    · rcases ih c h with h3 | h3
      · exact Or.inl h3
      · exact Or.inr (List.mem_cons_of_mem _ h3)
  | case6 c1 c2 rest h1 ih =>
    intro c hc
    simp only [crToNl, if_neg h1] at hc
    rcases List.mem_cons.mp hc with h | h
    · exact Or.inr (h ▸ List.mem_cons_self c1 _)
    · rcases ih c h with h3 | h3
      · exact Or.inl h3
      · exact Or.inr (List.mem_cons_of_mem c1 h3)


theorem dropWhile_ws_joinNl :
    ∀ (ms : List (List Char)), (∀ m ∈ ms, noHead wsJS m) →
      (joinNl ms).dropWhile wsJS = joinNl (ms.dropWhile List.isEmpty) := by
  intro ms
  induction ms with
  | nil => intro _; simp [joinNl]
  | cons m ms' ih =>
    intro hh
    cases m with
    | nil =>
      cases ms' with
      | nil => simp [joinNl, List.dropWhile]
      | cons a l =>
        have h1 : joinNl ([] :: a :: l) = '\n' :: joinNl (a :: l) := rfl
        rw [h1]
        have h2 : wsJS '\n' = true := by decide
        rw [List.dropWhile_cons, if_pos h2,
          ih (fun x hx => hh x (List.mem_cons_of_mem _ hx))]
        rfl
    | cons c m' =>
      have hc : wsJS c = false := hh (c :: m') (List.mem_cons_self _ _) c rfl
      cases ms' with
      | nil =>
        show (c :: m').dropWhile wsJS = joinNl (((c :: m') :: []).dropWhile List.isEmpty)
        rw [List.dropWhile_cons, if_neg (by simp [hc])]
        rfl
      | cons a l =>
        rw [joinNl_cons, List.cons_append, List.dropWhile_cons,
          if_neg (by simp [hc])]
        have hemp : ((c :: m') :: a :: l).dropWhile List.isEmpty =
            (c :: m') :: a :: l := by
          rw [List.dropWhile_cons, if_neg (by simp)]
        rw [hemp, joinNl_cons, List.cons_append]

theorem joinNl_concat :
    ∀ (xs : List (List Char)) (y : List Char), xs ≠ [] →
      joinNl (xs ++ [y]) = joinNl xs ++ '\n' :: y := by
  intro xs
  induction xs with
  | nil => intro y h; exact absurd rfl h
  | cons x xs' ih =>
    intro y _
    cases xs' with
    | nil => simp [joinNl_cons, joinNl]
    | cons a l =>
      have h1 : (x :: a :: l) ++ [y] = x :: ((a :: l) ++ [y]) := rfl
      rw [h1]
      have h2 : (a :: l) ++ [y] = a :: (l ++ [y]) := rfl
      rw [h2, joinNl_cons, ← h2, ih y (by simp), joinNl_cons]
      simp [List.append_assoc]

theorem reverse_joinNl :
    ∀ (ms : List (List Char)),
      (joinNl ms).reverse = joinNl ((ms.map List.reverse).reverse) := by
  intro ms
  induction ms with
  | nil => rfl
  | cons m ms' ih =>
    cases ms' with
    | nil => simp [joinNl]
    | cons a l =>
      rw [joinNl_cons, List.reverse_append, List.reverse_cons]
      rw [ih]
      have hne : (((a :: l).map List.reverse).reverse) ≠ [] := by simp
      have hmap : ((m :: a :: l).map List.reverse).reverse =
          ((a :: l).map List.reverse).reverse ++ [m.reverse] := by
        simp [List.map_cons, List.reverse_cons]
      rw [hmap, joinNl_concat _ _ hne]
      simp

theorem jsTrim_joinNl (ms : List (List Char))
    (hfix : ∀ m ∈ ms, jsTrim m = m) :
    jsTrim (joinNl ms) = joinNl (dropBoth List.isEmpty ms) := by
  have hhead : ∀ m ∈ ms, noHead wsJS m := fun m hm =>
    (noHead_of_dropBoth_eq_self (hfix m hm)).1
  have hrev : ∀ m ∈ ms, noHead wsJS m.reverse := fun m hm =>
    (noHead_of_dropBoth_eq_self (hfix m hm)).2
  show dropBoth wsJS (joinNl ms) = joinNl (dropBoth List.isEmpty ms)
  unfold dropBoth
  rw [dropWhile_ws_joinNl ms hhead]
  have hsub1 : ∀ m ∈ ms.dropWhile List.isEmpty, m ∈ ms := fun m hm =>
    (List.dropWhile_suffix _).subset hm
  unfold List.rdropWhile
  rw [reverse_joinNl]
  have hh2 : ∀ x ∈ (((ms.dropWhile List.isEmpty).map List.reverse).reverse),
      noHead wsJS x := by
    intro x hx
    rw [List.mem_reverse] at hx
    obtain ⟨m, hm, rfl⟩ := List.mem_map.mp hx
    exact hrev m (hsub1 m hm)
  rw [dropWhile_ws_joinNl _ hh2, reverse_joinNl]
  congr 1
  have hmaprev : (((ms.dropWhile List.isEmpty).map List.reverse).reverse) =
      ((ms.dropWhile List.isEmpty).reverse).map List.reverse := by
    rw [List.map_reverse]
  rw [hmaprev]
  have heq : (List.isEmpty ∘ (List.reverse : List Char → List Char)) = List.isEmpty := by
    funext m
    cases m <;> simp
  rw [List.dropWhile_map, heq]
  have hid : ((List.reverse : List Char → List Char) ∘ List.reverse) = id := by
    funext m
    simp
  rw [List.map_map, hid, List.map_id]


theorem map_id_of_fix {f : α → α} :
    ∀ (l : List α), (∀ x ∈ l, f x = x) → l.map f = l := by
  intro l
  induction l with
  | nil => intro _; rfl
  | cons a rest ih =>
    intro h
    rw [List.map_cons, h a (List.mem_cons_self a rest),
      ih (fun x hx => h x (List.mem_cons_of_mem a hx))]

theorem sanitizeChars_def (y : List Char) :
    sanitizeChars y =
      jsTrim (joinNl ((splitNl (crToNl (y.filter (fun c => !removedCtrl c)))).map
        (fun line => jsTrim (collapseWs line)))) := rfl

theorem sanitizeChars_idem (x : List Char) :
    sanitizeChars (sanitizeChars x) = sanitizeChars x := by
  have hfix : ∀ m ∈ ((splitNl (crToNl (x.filter (fun c => !removedCtrl c)))).map
      (fun line => jsTrim (collapseWs line))), jsTrim m = m := by
    intro m hm
    obtain ⟨line, _, rfl⟩ := List.mem_map.mp hm
    exact jsTrim_idem _
  have hJ : sanitizeChars x =
      joinNl (dropBoth List.isEmpty
        ((splitNl (crToNl (x.filter (fun c => !removedCtrl c)))).map
          (fun line => jsTrim (collapseWs line)))) := by
    rw [sanitizeChars_def, jsTrim_joinNl _ hfix]
  have hsub : ∀ m ∈ dropBoth List.isEmpty
      ((splitNl (crToNl (x.filter (fun c => !removedCtrl c)))).map
        (fun line => jsTrim (collapseWs line))),
      m ∈ ((splitNl (crToNl (x.filter (fun c => !removedCtrl c)))).map
        (fun line => jsTrim (collapseWs line))) := by
    intro m hm
    exact (dropBoth_infix_self _ _).subset hm
  have hnl : ∀ m ∈ ((splitNl (crToNl (x.filter (fun c => !removedCtrl c)))).map
      (fun line => jsTrim (collapseWs line))), '\n' ∉ m := by
    intro m hm
    obtain ⟨line, hline, rfl⟩ := List.mem_map.mp hm
    intro hmem
    have h1 : '\n' ∈ collapseWs line := (dropBoth_infix_self wsJS _).subset hmem
    rcases mem_collapseWsAux line false h1 with h | h
    · exact absurd h (by decide)
    · exact mem_splitNl_no_nl _ line hline h
  have hclean : ∀ c ∈ sanitizeChars x, removedCtrl c = false := by
    intro c hc
    rw [hJ] at hc
    rcases mem_joinNl _ c hc with h | ⟨m, hm, hcm⟩
    · rw [h]; decide
    · obtain ⟨line, hline, rfl⟩ := List.mem_map.mp (hsub m hm)
      have h1 : c ∈ collapseWs line := (dropBoth_infix_self wsJS _).subset hcm
      rcases mem_collapseWsAux line false h1 with h2 | h2
      · rw [h2]; decide
      · have h3 : c ∈ crToNl (x.filter (fun c => !removedCtrl c)) :=
          mem_of_mem_splitNl _ line hline c h2
        rcases mem_crToNl _ c h3 with h4 | h4
        · rw [h4]; decide
        · have := List.of_mem_filter h4
          simpa using this
  have hfilter : (sanitizeChars x).filter (fun c => !removedCtrl c) =
      sanitizeChars x := by
    rw [List.filter_eq_self]
    intro c hc
    simp [hclean c hc]
  have hcr : crToNl (sanitizeChars x) = sanitizeChars x := by
    apply crToNl_of_no_cr
    intro hmem
    have := hclean '\r' hmem
    simp [removedCtrl] at this
  rw [sanitizeChars_def (sanitizeChars x), hfilter, hcr]
  by_cases hms : dropBoth List.isEmpty
      ((splitNl (crToNl (x.filter (fun c => !removedCtrl c)))).map
        (fun line => jsTrim (collapseWs line))) = []
  · have ho2 : sanitizeChars x = [] := by rw [hJ, hms]; rfl
    rw [ho2]
    rfl
  · have hsplit : splitNl (sanitizeChars x) = dropBoth List.isEmpty
        ((splitNl (crToNl (x.filter (fun c => !removedCtrl c)))).map
          (fun line => jsTrim (collapseWs line))) := by
      rw [hJ]
      exact splitNl_joinNl _ (fun m hm => hnl m (hsub m hm)) hms
    have hfm : ∀ m ∈ dropBoth List.isEmpty
        ((splitNl (crToNl (x.filter (fun c => !removedCtrl c)))).map
          (fun line => jsTrim (collapseWs line))),
        jsTrim (collapseWs m) = m := by
      intro m hm
      obtain ⟨line, _, rfl⟩ := List.mem_map.mp (hsub m hm)
      exact line_fix line
    have hfix' : ∀ m ∈ dropBoth List.isEmpty
        ((splitNl (crToNl (x.filter (fun c => !removedCtrl c)))).map
          (fun line => jsTrim (collapseWs line))), jsTrim m = m := by
      intro m hm
      exact hfix m (hsub m hm)
    rw [hsplit, map_id_of_fix _ hfm, jsTrim_joinNl _ hfix',
      dropBoth_idem List.isEmpty, ← hJ]


/-! ### HTML escaping preserves trimmedness -/

theorem escapeHtmlChar_ne_nil (c : Char) : escapeHtmlChar c ≠ [] := by
  unfold escapeHtmlChar
  split_ifs <;> simp

theorem escapeHTML_cons (c : Char) (l : List Char) :
    escapeHTML (c :: l) = escapeHtmlChar c ++ escapeHTML l := by
  simp [escapeHTML]

theorem escapeHTML_append (l1 l2 : List Char) :
    escapeHTML (l1 ++ l2) = escapeHTML l1 ++ escapeHTML l2 := by
  simp [escapeHTML]

theorem escapeHtmlChar_head (c : Char) (h : wsJS c = false) :
    ∃ d ds, escapeHtmlChar c = d :: ds ∧ wsJS d = false := by
  unfold escapeHtmlChar
  split_ifs
  · exact ⟨'&', ['a', 'm', 'p', ';'], by decide, by decide⟩
  · exact ⟨'&', ['l', 't', ';'], by decide, by decide⟩
  · exact ⟨'&', ['g', 't', ';'], by decide, by decide⟩
  · exact ⟨'&', ['#', '3', '9', ';'], by decide, by decide⟩
  · exact ⟨'&', ['q', 'u', 'o', 't', ';'], by decide, by decide⟩
  · exact ⟨c, [], rfl, h⟩

theorem escapeHtmlChar_last (c : Char) (h : wsJS c = false) :
    ∃ ds d, escapeHtmlChar c = ds ++ [d] ∧ wsJS d = false := by
  unfold escapeHtmlChar
  split_ifs
  · exact ⟨['&', 'a', 'm', 'p'], ';', by decide, by decide⟩
  · exact ⟨['&', 'l', 't'], ';', by decide, by decide⟩
  · exact ⟨['&', 'g', 't'], ';', by decide, by decide⟩
  · exact ⟨['&', '#', '3', '9'], ';', by decide, by decide⟩
  · exact ⟨['&', 'q', 'u', 'o', 't'], ';', by decide, by decide⟩
  · exact ⟨[], c, rfl, h⟩

theorem jsTrim_escapeHTML {x : List Char} (hx : jsTrim x = x) :
    jsTrim (escapeHTML x) = escapeHTML x := by
  obtain ⟨h1, h2⟩ := (dropBoth_eq_self_iff wsJS x).mp hx
  apply (dropBoth_eq_self_iff wsJS _).mpr
  constructor
  · cases x with
    | nil => simp [escapeHTML]
    | cons c rest =>
      have hc : wsJS c = false := noHead_of_dropWhile_eq_self h1 c rfl
      obtain ⟨d, ds, hde, hd⟩ := escapeHtmlChar_head c hc
      rw [escapeHTML_cons, hde, List.cons_append, List.dropWhile_cons,
        if_neg (by simp [hd])]
  · rcases List.eq_nil_or_concat x with rfl | ⟨y, c, rfl⟩
    · simp [escapeHTML]
    · have hcat : y.concat c = y ++ [c] := List.concat_eq_append y c
      rw [hcat] at h1 h2 ⊢
      have hnh := noHead_of_dropWhile_eq_self (rdropWhile_eq_self_rev.mp h2)
      have hc : wsJS c = false := by
        have hrev : (y ++ [c]).reverse = c :: y.reverse := by simp
        exact hnh c (by rw [hrev]; rfl)
      obtain ⟨ds, d, hde, hd⟩ := escapeHtmlChar_last c hc
      have hone : escapeHTML [c] = escapeHtmlChar c := by simp [escapeHTML]
      rw [escapeHTML_append, hone, hde, ← List.append_assoc]
      exact List.rdropWhile_concat_neg wsJS _ d (by simp [hd])

theorem escapeHTML_ne_nil {x : List Char} (h : x ≠ []) : escapeHTML x ≠ [] := by
  cases x with
  | nil => exact absurd rfl h
  | cons c rest =>
    rw [escapeHTML_cons]
    simp [escapeHtmlChar_ne_nil c]

theorem jsTrimStr_escape_sanitize (raw : String) :
    jsTrimStr (escapeHTMLStr (sanitizeTweetText raw)) =
      escapeHTMLStr (sanitizeTweetText raw) := by
  have hx : jsTrim (sanitizeChars raw.data) = sanitizeChars raw.data :=
    jsTrim_idem _
  unfold jsTrimStr escapeHTMLStr sanitizeTweetText
  exact congrArg String.mk (jsTrim_escapeHTML hx)


theorem length_escapeHTMLStr_pos {s : String} (h : 1 ≤ s.length) :
    1 ≤ (escapeHTMLStr s).length := by
  have hne : s.data ≠ [] := by
    intro he
    have : s.length = 0 := by
      show s.data.length = 0
      rw [he]
      rfl
    omega
  have := escapeHTML_ne_nil hne
  show 1 ≤ (escapeHTML s.data).length
  have := List.length_pos.mpr this
  omega


/-! ### Sample data for the concrete scenarios -/

/-! ### Claim theorems -/

/-- Claim C1: the claim says double like-toggling is an involution.  The
part_002 like handler falsifies it: on a post bob has not liked, the first
request adds the like, and the second request removes it but then
unconditionally re-adds it through `addLike`, answering 200 with bob still
present — the like set does not return to its original membership or count.
The part_001 revision's pure if/else toggle does restore the original
state on the same input. -/
theorem claim_C1 :
    tweetEmpty.likes = [] ∧
    likeHandlerV2 tweetEmpty "bob" = .ok tweetLiked ∧
    likeHandlerV2 tweetLiked "bob" = .ok tweetLiked ∧
    tweetLiked.likes ≠ tweetEmpty.likes ∧
    (likeHandlerV1 (likeHandlerV1 tweetEmpty "bob") "bob").likes = tweetEmpty.likes :=
  ⟨rfl, rfl, rfl, by decide, rfl⟩

/-- Claim C2: the claim says the retweet toggle removes an already-present
reposter and reports added=false.  The code falsifies it: on a post bob has
already retweeted, the handler filters bob's entry out but then
unconditionally calls `addRetweet`, which re-adds it, so the request
succeeds with bob still present — the entry is never removed and the
endpoint never reports a failed add. -/
theorem claim_C2 :
    "bob" ∈ tweetRetweeted.retweets ∧
    retweetHandler tweetRetweeted "bob" = .ok tweetRetweeted ∧
    tweetRetweeted.retweets = ["bob"] :=
  ⟨by decide, rfl, rfl⟩

/-- Claim C3: every sequence of like and retweet interactions (through any
of the handler revisions) preserves the invariant that the like and retweet
collections hold at most one entry per identity. -/
theorem claim_C3 (t : Tweet) (ops : List InteractionOp)
    (h1 : t.likes.Nodup) (h2 : t.retweets.Nodup) :
    (runOps t ops).likes.Nodup ∧ (runOps t ops).retweets.Nodup := by
  induction ops generalizing t with
  | nil => exact ⟨h1, h2⟩
  | cons op rest ih =>
    have h := applyOp_nodup t op h1 h2
    exact ih (applyOp t op) h.1 h.2

/-- Witness for C3 at a concrete tweet and interaction sequence. -/
theorem claim_C3_witness :
    sampleTweet.likes.Nodup ∧ sampleTweet.retweets.Nodup ∧
    ((runOps sampleTweet sampleOps).likes.Nodup ∧
      (runOps sampleTweet sampleOps).retweets.Nodup) :=
  ⟨by decide, by decide, claim_C3 sampleTweet sampleOps (by decide) (by decide)⟩

/-- Claim C5 (amended): the claim holds for the part_001 create handler —
sanitized length 0 or above 280 answers the 400 validation error with the
store unchanged — but fails for the cited part_002 handler, which performs
no sanitization or length check: only empty/whitespace-only text gets its
400; text whose trimmed length exceeds 280 fails at save as the generic 500
storage error, not a ValidationError; and any other text (including text
whose sanitized form is empty, such as bare control characters) is
persisted as its trimmed self. -/
theorem claim_C5 (store : List Tweet) (username raw : String) (now : Nat) :
    ((sanitizeTweetText raw).length = 0 ∨ 280 < (sanitizeTweetText raw).length →
      createTweet store username raw now =
        (.error (.validation "Tweet must be between 1 and 280 characters"), store)) ∧
    (jsTrimStr raw = "" →
      createTweetV2 store username raw now =
        (.error (.validation "Tweet text is required"), store)) ∧
    (280 < (jsTrimStr raw).length →
      createTweetV2 store username raw now =
        (.error (.storage "Error creating tweet"), store)) ∧
    (1 ≤ (jsTrimStr raw).length → (jsTrimStr raw).length ≤ 280 →
      createTweetV2 store username raw now =
        (.ok (mkTweetDoc username (jsTrimStr raw) now),
          store ++ [mkTweetDoc username (jsTrimStr raw) now])) := by
  refine ⟨?_, ?_, ?_, ?_⟩
  · intro h
    unfold createTweet
    rw [jsTrimStr_sanitize]
    have hcond : (sanitizeTweetText raw).length < 1 ∨
        MAX_TWEET_LEN < (sanitizeTweetText raw).length := by
      rcases h with h | h
      · exact Or.inl (by omega)
      · exact Or.inr h
    rw [if_pos hcond]
  · intro h
    unfold createTweetV2
    rw [if_pos h]
  · intro hg
    have hne : jsTrimStr raw ≠ "" := by
      intro he
      rw [he] at hg
      exact absurd hg (by decide)
    simp only [createTweetV2]
    rw [jsTrimStr_idem, if_neg hne, if_pos (by unfold MAX_TWEET_LEN; omega)]
  · intro hl hu
    have hne : jsTrimStr raw ≠ "" := by
      intro he
      rw [he] at hl
      exact absurd hl (by decide)
    simp only [createTweetV2]
    rw [jsTrimStr_idem, if_neg hne, if_neg (by unfold MAX_TWEET_LEN; omega)]
    rfl

/-- Counterexample to claim C5 as stated: a single BEL control character
sanitizes to the empty string (sanitized length 0), yet the part_002 create
handler accepts it — it is neither empty nor whitespace-only, there is no
sanitization, the save succeeds, and the post IS persisted with the raw
control character as its text. -/
theorem claim_C5_counterexample :
    (sanitizeTweetText ctrlRaw).length = 0 ∧
    createTweetV2 [] "alice" ctrlRaw 2 =
      (.ok (mkTweetDoc "alice" ctrlRaw 2), [mkTweetDoc "alice" ctrlRaw 2]) :=
  ⟨by decide, rfl⟩

/-- Witness for the amended claim C5 at concrete inputs, one per branch. -/
theorem claim_C5_witness :
    (((sanitizeTweetText "").length = 0 ∨ 280 < (sanitizeTweetText "").length) ∧
      createTweet [] "alice" "" 7 =
        (.error (.validation "Tweet must be between 1 and 280 characters"), [])) ∧
    (jsTrimStr " " = "" ∧
      createTweetV2 [] "alice" " " 7 =
        (.error (.validation "Tweet text is required"), [])) ∧
    (280 < (jsTrimStr oversizedComment).length ∧
      createTweetV2 [] "alice" oversizedComment 7 =
        (.error (.storage "Error creating tweet"), [])) ∧
    ((1 ≤ (jsTrimStr "hi").length ∧ (jsTrimStr "hi").length ≤ 280) ∧
      createTweetV2 [] "alice" "hi" 7 =
        (.ok (mkTweetDoc "alice" (jsTrimStr "hi") 7),
          [] ++ [mkTweetDoc "alice" (jsTrimStr "hi") 7])) :=
  ⟨⟨Or.inl (by decide), (claim_C5 [] "alice" "" 7).1 (Or.inl (by decide))⟩,
   ⟨by decide, (claim_C5 [] "alice" " " 7).2.1 (by decide)⟩,
   ⟨by decide, (claim_C5 [] "alice" oversizedComment 7).2.2.1 (by decide)⟩,
   ⟨⟨by decide, by decide⟩,
    (claim_C5 [] "alice" "hi" 7).2.2.2 (by decide) (by decide)⟩⟩

/-- Claim C7 (amended): the part_001 feed query returns tweets newest-first
by creation timestamp with its length bounded by the limit (the part_001
endpoint being the query with the default cap 50), and on three posts
created at times 1, 2, 3 the query with limit 2 returns exactly the third
then the second post; the cited part_002 endpoint also sorts newest-first
but has no limit call, so its result is unbounded — it always returns the
entire store, in particular 51 posts from a 51-post store. -/
theorem claim_C7 (limit : Nat) (store : List Tweet) :
    SortedDesc (listRecent limit store) ∧
    (listRecent limit store).length ≤ limit ∧
    tweetsEndpoint store = listRecent 50 store ∧
    listRecent 2 [feedPost1, feedPost2, feedPost3] = [feedPost3, feedPost2] ∧
    SortedDesc (tweetsEndpointV2 store) ∧
    (tweetsEndpointV2 store).length = store.length ∧
    50 < (tweetsEndpointV2 feedStore51).length := by
  refine ⟨?_, ?_, rfl, by decide, sortedDesc_sort store,
    length_sortByCreatedDesc store, ?_⟩
  · exact List.Chain'.prefix (sortedDesc_sort store) ( List.take_prefix _ _)
  · exact List.length_take_le _ _
  · show 50 < (sortByCreatedDesc feedStore51).length
    rw [length_sortByCreatedDesc]
    simp [feedStore51]

/-- Counterexample to claim C7 as stated: the part_002 feed endpoint has no
limit — on a store of 51 posts it returns all 51, so its result length is
not bounded by the default cap 50. -/
theorem claim_C7_counterexample :
    feedStore51.length = 51 ∧
    (tweetsEndpointV2 feedStore51).length = 51 ∧
    ¬(tweetsEndpointV2 feedStore51).length ≤ 50 := by
  refine ⟨by simp [feedStore51], ?_, ?_⟩
  · show (sortByCreatedDesc feedStore51).length = 51
    rw [length_sortByCreatedDesc]
    simp [feedStore51]
  · show ¬(sortByCreatedDesc feedStore51).length ≤ 50
    rw [length_sortByCreatedDesc]
    simp [feedStore51]

/-- Claim C8: the server time-ago formatter walks the descending unit table
year, month, week, day, hour, minute and returns the count of the first
unit whose floored quotient is at least 1, falling back to raw seconds; in
particular 45 seconds give 45s, 125 seconds give 2m, 90000 seconds give 1d
— and the client formatter agrees on those three inputs. -/
theorem claim_C8 :
    (∀ s : Int, timeAgo s = timeAgoSpec s) ∧
    timeAgo 45 = "45s" ∧ timeAgo 125 = "2m" ∧ timeAgo 90000 = "1d" ∧
    formatTimeAgo 45 = "45s" ∧ formatTimeAgo 125 = "2m" ∧
    formatTimeAgo 90000 = "1d" := by
  refine ⟨fun s => ?_, rfl, rfl, rfl, rfl, rfl, rfl⟩
  unfold timeAgo timeAgoSpec intervals
  simp only [List.findSome?]
  split_ifs <;> rfl

/-- Claim C9: the 400 duplicate branch of the part_002 like handler and of
the retweet handlers is unreachable: both always answer with the updated
collection. -/
theorem claim_C9 (t : Tweet) (u : String) :
    (∃ t1, likeHandlerV2 t u = .ok t1) ∧ ∃ t2, retweetHandler t u = .ok t2 :=
  ⟨⟨_, likeHandlerV2_ok t u⟩, ⟨_, retweetHandler_ok t u⟩⟩

/-- Claim C4 (amended): for text whose sanitized form has length 1..280 and
whose HTML-escaped form still fits in 280 characters, create succeeds and
the stored post's text is the sanitized-and-escaped form of the input, the
new post being appended to the store.  The extra escaped-length condition
is forced by the counterexample: escaping can inflate the text past the
schema's 280-character limit, in which case the save fails. -/
theorem claim_C4 (store : List Tweet) (username raw : String) (now : Nat)
    (h1 : 1 ≤ (sanitizeTweetText raw).length)
    (h2 : (sanitizeTweetText raw).length ≤ 280)
    (h3 : (escapeHTMLStr (sanitizeTweetText raw)).length ≤ 280) :
    createTweet store username raw now =
      (.ok (mkTweetDoc username (escapeHTMLStr (sanitizeTweetText raw)) now),
        store ++ [mkTweetDoc username (escapeHTMLStr (sanitizeTweetText raw)) now]) := by
  have h4 : 1 ≤ (escapeHTMLStr (sanitizeTweetText raw)).length :=
    length_escapeHTMLStr_pos h1
  simp only [createTweet]
  rw [jsTrimStr_sanitize, jsTrimStr_escape_sanitize]
  rw [if_neg (by unfold MAX_TWEET_LEN; omega), if_neg (by unfold MAX_TWEET_LEN; omega)]
  rfl

/-- Counterexample to claim C4 as stated: 57 ampersands sanitize to
themselves (length 57, within 1..280), but escaping turns each into a
5-character entity (285 characters), the Mongoose maxlength validator
rejects the save, and the handler answers 500 with nothing persisted. -/
theorem claim_C4_counterexample :
    1 ≤ (sanitizeTweetText ampRaw).length ∧
    (sanitizeTweetText ampRaw).length ≤ 280 ∧
    createTweet [] "alice" ampRaw 3 = (.error (.storage "Error creating tweet"), []) :=
  ⟨by decide, by decide, rfl⟩

/-- Witness for the amended claim C4 at a concrete input. -/
theorem claim_C4_witness :
    (1 ≤ (sanitizeTweetText "hi & bye").length ∧
      (sanitizeTweetText "hi & bye").length ≤ 280 ∧
      (escapeHTMLStr (sanitizeTweetText "hi & bye")).length ≤ 280) ∧
    createTweet [] "alice" "hi & bye" 4 =
      (.ok (mkTweetDoc "alice" (escapeHTMLStr (sanitizeTweetText "hi & bye")) 4),
        [] ++ [mkTweetDoc "alice" (escapeHTMLStr (sanitizeTweetText "hi & bye")) 4]) :=
  ⟨⟨by decide, by decide, by decide⟩,
    claim_C4 [] "alice" "hi & bye" 4 (by decide) (by decide) (by decide)⟩


/-- Claim C6 (amended): empty or whitespace-only comment text fails with
the 400 validation error; text of trimmed length 1..280 is appended with
the server-assigned timestamp; but text of trimmed length above 280 fails
at save time and surfaces as the generic 500 storage error, not as a
validation error as the claim stated. -/
theorem claim_C6 (t : Tweet) (username text : String) (now : Nat) :
    (jsTrimStr text = "" →
      commentHandler t username text now =
        .error (.validation "Comment text is required")) ∧
    (1 ≤ (jsTrimStr text).length → (jsTrimStr text).length ≤ 280 →
      commentHandler t username text now = .ok { t with comments := t.comments ++
        [{ username := username, text := jsTrimStr text, createdAt := now }] }) ∧
    (280 < (jsTrimStr text).length →
      commentHandler t username text now = .error (.storage "Error commenting")) := by
  refine ⟨?_, ?_, ?_⟩
  · intro h
    unfold commentHandler
    rw [if_pos h]
  · intro hl hu
    have hne : jsTrimStr text ≠ "" := by
      intro he
      rw [he] at hl
      exact absurd hl (by decide)
    unfold commentHandler
    rw [if_neg hne, if_pos hu]
  · intro hg
    have hne : jsTrimStr text ≠ "" := by
      intro he
      rw [he] at hg
      exact absurd hg (by decide)
    unfold commentHandler
    rw [if_neg hne, if_neg (show ¬(jsTrimStr text).length ≤ 280 by omega)]

/-- Counterexample to claim C6 as stated: a 281-character comment passes
the handler's emptiness guard, fails the comment schema's maxlength at
save, and is answered with the generic 500 response rather than a
validation error. -/
theorem claim_C6_counterexample :
    280 < (jsTrimStr oversizedComment).length ∧
    commentHandler tweetEmpty "bob" oversizedComment 9 =
      .error (.storage "Error commenting") :=
  ⟨by decide, rfl⟩

/-- Witness for the amended claim C6 at concrete inputs. -/
theorem claim_C6_witness :
    (1 ≤ (jsTrimStr " hi ").length ∧ (jsTrimStr " hi ").length ≤ 280 ∧
      commentHandler tweetEmpty "bob" " hi " 9 =
        .ok { tweetEmpty with comments := tweetEmpty.comments ++
          [{ username := "bob", text := jsTrimStr " hi ", createdAt := 9 }] }) ∧
    (jsTrimStr "" = "" ∧
      commentHandler tweetEmpty "bob" "" 9 =
        .error (.validation "Comment text is required")) :=
  ⟨⟨by decide, by decide,
    (claim_C6 tweetEmpty "bob" " hi " 9).2.1 (by decide) (by decide)⟩,
   ⟨by decide, (claim_C6 tweetEmpty "bob" "" 9).1 (by decide)⟩⟩

/-- Claim C10: the tweet-text sanitizer is idempotent — sanitizing an
already-sanitized string returns it unchanged, for every input string. -/
theorem claim_C10 (s : String) :
    sanitizeTweetText (sanitizeTweetText s) = sanitizeTweetText s := by
  unfold sanitizeTweetText
  exact congrArg String.mk (sanitizeChars_idem s.data)

end AnonSocial
